import Mathlib

/-!
Shallow embedding of the rom-patcher IPS codec.

Sources embedded: `src/err.rs` (the error model), `src/io_util.rs` (integer
byte codecs, exact reads, the `Truncate` impls and the `Cursor` write model),
and `src/ips.rs` (hunk model, patch container, parser, serializer, in-memory
apply and the streaming applicator).

A byte stream (`impl Read` over an in-memory slice) is a `List Nat` of bytes
together with the convention that `read_exact` consumes a prefix on success
and consumes nothing on failure, failing with `ErrorKind::UnexpectedEof`
exactly when fewer bytes remain than requested: this is the behavior of
`<&[u8] as Read>::read_exact`.  A seekable writable target
(`Cursor<Vec<u8>>`) is a `List Nat`; each hunk apply seeks to an absolute
offset first, so no cursor position needs to be carried between hunks.
-/

deriving instance DecidableEq for Except

/-- `std::io::ErrorKind`, restricted to the variants the embedded code
inspects: `UnexpectedEof` (what a short read of an in-memory slice returns)
and a catch-all for every other kind. -/
inductive IOErrorKind where
  | UnexpectedEof : IOErrorKind
  | OtherKind : IOErrorKind
deriving DecidableEq

/-- `std::io::Error`, reduced to the only observable the embedded code uses:
its kind. -/
structure IOError where
  kind : IOErrorKind
deriving DecidableEq

/-- `ErrorKind` from `src/err.rs`. -/
inductive ErrorKind where
  | PatchingError : ErrorKind
  | ParsingError : ErrorKind
deriving DecidableEq

/-- `Error` from `src/err.rs`: a kind, an optional description and an
optional wrapped I/O error as source. -/
structure Error where
  kind : ErrorKind
  description : Option String
  source : Option IOError
deriving DecidableEq

/-- `Error::new` from `src/err.rs`. -/
def Error.new (kind : ErrorKind) : Error :=
  { kind := kind, description := none, source := none }

/-- `Error::with_description` from `src/err.rs`. -/
def Error.with_description (e : Error) (description : String) : Error :=
  { kind := e.kind, description := some description, source := e.source }

/-- `Error.with_source` from `src/err.rs`. -/
def Error.with_source (e : Error) (source : IOError) : Error :=
  { kind := e.kind, description := e.description, source := some source }

/-- `u32::to_u24_be_bytes` from `src/io_util.rs`: the three big-endian bytes
of the low 24 bits of `self`. -/
def u32.to_u24_be_bytes (v : Nat) : List Nat :=
  [(v >>> 16) &&& 0xFF, (v >>> 8) &&& 0xFF, v &&& 0xFF]

/-- `u32::from_u24_be_bytes` from `src/io_util.rs`: big-endian recomposition
of the first three bytes of a slice (the Rust indexes positions 0, 1 and 2 of
a slice that is always 3 bytes long at every call site). -/
def u32.from_u24_be_bytes (bytes : List Nat) : Nat :=
  (bytes.getD 0 0) <<< 16 ||| (bytes.getD 1 0) <<< 8 ||| (bytes.getD 2 0)

/-- `u16::to_be_bytes`: the two big-endian bytes of a 16-bit value. -/
def u16.to_be_bytes (v : Nat) : List Nat :=
  [(v >>> 8) &&& 0xFF, v &&& 0xFF]

/-- `u16::from_be_bytes`: big-endian recomposition of two bytes. -/
def u16.from_be_bytes (bytes : List Nat) : Nat :=
  (bytes.getD 0 0) <<< 8 ||| (bytes.getD 1 0)

/-- `<&[u8] as Read>::read_exact` into a buffer of size `n`: returns the
`n`-byte prefix and the remaining bytes, or fails with `UnexpectedEof`
consuming nothing when fewer than `n` bytes remain. -/
def readExact (n : Nat) (input : List Nat) :
    Except IOError (List Nat × List Nat) :=
  if n ≤ input.length then .ok (input.take n, input.drop n)
  else .error { kind := .UnexpectedEof }

/-- `ReaderExtensions::read_u24_be` from `src/io_util.rs`: read 3 bytes,
decoding big-endian; a short read becomes a `ParsingError` carrying
`err_message` and wrapping the I/O error as source. -/
def read_u24_be (err_message : String) (input : List Nat) :
    Except Error (Nat × List Nat) :=
  match readExact 3 input with
  | .error e =>
      .error (((Error.new .ParsingError).with_description err_message).with_source e)
  | .ok (buf, rest) => .ok (u32.from_u24_be_bytes buf, rest)

/-- `ReaderExtensions::read_u16_be` from `src/io_util.rs`. -/
def read_u16_be (err_message : String) (input : List Nat) :
    Except Error (Nat × List Nat) :=
  match readExact 2 input with
  | .error e =>
      .error (((Error.new .ParsingError).with_description err_message).with_source e)
  | .ok (buf, rest) => .ok (u16.from_be_bytes buf, rest)

/-- `ReaderExtensions::read_u8` from `src/io_util.rs`. -/
def read_u8 (err_message : String) (input : List Nat) :
    Except Error (Nat × List Nat) :=
  match readExact 1 input with
  | .error e =>
      .error (((Error.new .ParsingError).with_description err_message).with_source e)
  | .ok (buf, rest) => .ok (buf.getD 0 0, rest)

/-- `AssertRead::assert_read` from `src/io_util.rs`: read exactly
`expected.length` bytes (short read: `ParsingError` with
`read_error_message`, source discarded by `map_err`), then compare with
`expected` (mismatch: `ParsingError` with `parse_error_message`). -/
def assert_read (input : List Nat) (expected : List Nat)
    (read_error_message parse_error_message : String) :
    Except Error (List Nat) :=
  match readExact expected.length input with
  | .error _ =>
      .error ((Error.new .ParsingError).with_description read_error_message)
  | .ok (buf, rest) =>
      if buf ≠ expected then
        .error ((Error.new .ParsingError).with_description parse_error_message)
      else .ok rest

/-- `impl Truncate for Vec<u8>` from `src/io_util.rs`: `Vec::truncate`
keeps the first `amount` elements and is a no-op when `amount` exceeds the
current length. -/
def vecTruncate (v : List Nat) (amount : Nat) : List Nat :=
  v.take amount

/-- `<Cursor<Vec<u8>> as Write>::write_all` after a `seek(Start(pos))`:
zero-fill any gap between the current end and `pos`, then overwrite
(extending as needed) with `payload`. -/
def cursorWrite (target : List Nat) (pos : Nat) (payload : List Nat) :
    List Nat :=
  let padded := target ++ List.replicate (pos - target.length) 0
  padded.take pos ++ payload ++ padded.drop (pos + payload.length)

/-- `IPSRegularHunkData` from `src/ips.rs`: offset (`u32`, written as 24-bit
on the wire), payload length (`u16`), and the payload bytes. -/
structure IPSRegularHunkData where
  offset : Nat
  length : Nat
  payload : List Nat
deriving DecidableEq

/-- `IPSRLEHunkData` from `src/ips.rs`: offset, run length (`u16`) and the
single payload byte repeated `run_length` times on apply. -/
structure IPSRLEHunkData where
  offset : Nat
  run_length : Nat
  payload : Nat
deriving DecidableEq

/-- `IPSHunk` from `src/ips.rs`. -/
inductive IPSHunk where
  | Regular : IPSRegularHunkData → IPSHunk
  | RLE : IPSRLEHunkData → IPSHunk
deriving DecidableEq

/-- `ReadHunkResult` from `src/ips.rs`: a decoded hunk, or end of patch with
the optional truncate amount. -/
inductive ReadHunkResult where
  | Hunk : IPSHunk → ReadHunkResult
  | EOF : Option Nat → ReadHunkResult
deriving DecidableEq

/-- `IPSPatch` from `src/ips.rs`: the hunk sequence plus the optional
truncate length. -/
structure IPSPatch where
  hunks : List IPSHunk
  truncate : Option Nat
deriving DecidableEq

/-- `IPSPatch::HEADER`: the ASCII bytes of `"PATCH"`. -/
def IPSPatch.HEADER : List Nat := [0x50, 0x41, 0x54, 0x43, 0x48]

/-- `IPSPatch::EOF`: the ASCII bytes of `"EOF"`. -/
def IPSPatch.EOF : List Nat := [0x45, 0x4F, 0x46]

/-- `IPSRegularHunkData::write` from `src/ips.rs`. -/
def IPSRegularHunkData.write (d : IPSRegularHunkData) : List Nat :=
  u32.to_u24_be_bytes d.offset ++ u16.to_be_bytes d.length ++ d.payload

/-- `IPSRegularHunkData::read` from `src/ips.rs`: read exactly `length`
payload bytes (short read: `ParsingError` "Unable to read payload." with the
source discarded by `map_err`). -/
def IPSRegularHunkData.read (input : List Nat) (offset length : Nat) :
    Except Error (IPSHunk × List Nat) :=
  match readExact length input with
  | .error _ =>
      .error ((Error.new .ParsingError).with_description "Unable to read payload.")
  | .ok (payload, rest) =>
      .ok (.Regular { offset := offset, length := length, payload := payload }, rest)

/-- `IPSRegularHunkData::apply` from `src/ips.rs`: seek to `offset`, then
write the payload verbatim (total on a `Cursor<Vec<u8>>` target). -/
def IPSRegularHunkData.apply (d : IPSRegularHunkData) (target : List Nat) :
    List Nat :=
  cursorWrite target d.offset d.payload

/-- `IPSRLEHunkData::write` from `src/ips.rs`: offset, the zero length
sentinel, the run length and the payload byte. -/
def IPSRLEHunkData.write (d : IPSRLEHunkData) : List Nat :=
  u32.to_u24_be_bytes d.offset ++ [0x0, 0x0] ++ u16.to_be_bytes d.run_length
    ++ [d.payload]

/-- `IPSRLEHunkData::read` from `src/ips.rs`: read the run length then the
payload byte. -/
def IPSRLEHunkData.read (input : List Nat) (offset : Nat) :
    Except Error (IPSHunk × List Nat) :=
  match read_u16_be "Unable to read RLE run length." input with
  | .error e => .error e
  | .ok (run_length, r1) =>
      match read_u8 "Unable to read RLE payload." r1 with
      | .error e => .error e
      | .ok (payload, r2) =>
          .ok (.RLE { offset := offset, run_length := run_length, payload := payload }, r2)

/-- `IPSRLEHunkData::apply` from `src/ips.rs`: seek to `offset`, then write
the payload byte `run_length` times. -/
def IPSRLEHunkData.apply (d : IPSRLEHunkData) (target : List Nat) : List Nat :=
  cursorWrite target d.offset (List.replicate d.run_length d.payload)

/-- `IPSHunk::apply` from `src/ips.rs`. -/
def IPSHunk.apply (h : IPSHunk) (target : List Nat) : List Nat :=
  match h with
  | .Regular x => x.apply target
  | .RLE x => x.apply target

/-- `IPSHunk::write`: dispatch of the per-variant writes done inline in
`IPSPatch::write`. -/
def IPSHunk.write (h : IPSHunk) : List Nat :=
  match h with
  | .Regular data => data.write
  | .RLE data => data.write

/-- `IPSHunk::read_trunc` from `src/ips.rs`: try to read 3 more bytes; on
success they are the truncate amount; an `UnexpectedEof` failure is a clean
end of patch (truncate absent, nothing consumed); any other I/O failure is a
`ParsingError` "Unable to read truncate.". -/
def IPSHunk.read_trunc (input : List Nat) :
    Except Error (ReadHunkResult × List Nat) :=
  match readExact 3 input with
  | .ok (trunc_buf, rest) =>
      .ok (.EOF (some (u32.from_u24_be_bytes trunc_buf)), rest)
  | .error e =>
      if e.kind ≠ .UnexpectedEof then
        .error ((Error.new .ParsingError).with_description "Unable to read truncate.")
      else
        .ok (.EOF none, input)

/-- `IPSHunk::try_read_eof` from `src/ips.rs`: when `offset` equals the
24-bit value of the EOF marker, read the optional truncate. -/
def IPSHunk.try_read_eof (input : List Nat) (offset : Nat) :
    Option (Except Error (ReadHunkResult × List Nat)) :=
  if offset = u32.from_u24_be_bytes IPSPatch.EOF then
    some (IPSHunk.read_trunc input)
  else
    none

/-- `IPSHunk::try_read` from `src/ips.rs`: read the offset; if it is the EOF
marker, read the optional truncate; otherwise read the length field and
decode an RLE hunk (length 0) or a regular hunk. -/
def IPSHunk.try_read (input : List Nat) :
    Except Error (ReadHunkResult × List Nat) :=
  match read_u24_be "Unable to parse offset." input with
  | .error e => .error e
  | .ok (offset, r1) =>
      match IPSHunk.try_read_eof r1 offset with
      | some result => result
      | none =>
          match read_u16_be "Unable to read length." r1 with
          | .error e => .error e
          | .ok (length, r2) =>
              if length = 0 then
                match IPSRLEHunkData.read r2 offset with
                | .error e => .error e
                | .ok (h, r3) => .ok (.Hunk h, r3)
              else
                match IPSRegularHunkData.read r2 offset length with
                | .error e => .error e
                | .ok (h, r3) => .ok (.Hunk h, r3)

/-- The hunk list serialization inside `IPSPatch::write`: each hunk's bytes
in sequence order. -/
def writeHunks : List IPSHunk → List Nat
  | [] => []
  | h :: hs => h.write ++ writeHunks hs

/-- `IPSPatch::write` from `src/ips.rs`: header, every hunk, the EOF marker,
then the truncate bytes when present. -/
def IPSPatch.write (p : IPSPatch) : List Nat :=
  IPSPatch.HEADER ++ writeHunks p.hunks ++ IPSPatch.EOF ++
    (match p.truncate with
     | some truncate => u32.to_u24_be_bytes truncate
     | none => [])

/-- `IPSPatch::read_header` from `src/ips.rs`. -/
def IPSPatch.read_header (input : List Nat) : Except Error (List Nat) :=
  assert_read input IPSPatch.HEADER "Unable to parse header." "Invalid header."

/-- The `loop` of `IPSPatch::read_from`, made structurally recursive on a
fuel argument: every iteration of the Rust loop consumes at least five bytes
of input, so any `fuel` larger than `input.length` never reaches the
exhaustion case (`readHunksLoop_fuel_irrel` below makes this precise). -/
def readHunksLoop : Nat → List Nat →
    Except Error (List IPSHunk × Option Nat × List Nat)
  | 0, _ => .error (Error.new .ParsingError)
  | fuel + 1, input =>
      match IPSHunk.try_read input with
      | .error e => .error e
      | .ok (.EOF value, rest) => .ok ([], value, rest)
      | .ok (.Hunk hunk, rest) =>
          match readHunksLoop fuel rest with
          | .error e => .error e
          | .ok (hunks, value, rest2) => .ok (hunk :: hunks, value, rest2)

/-- `IPSPatch::read_from` from `src/ips.rs`: parse the header, then loop
reading hunks until the EOF marker, returning the populated patch and the
unconsumed remainder of the input. -/
def IPSPatch.read_from (input : List Nat) :
    Except Error (IPSPatch × List Nat) :=
  match IPSPatch.read_header input with
  | .error e => .error e
  | .ok r1 =>
      match readHunksLoop (r1.length + 1) r1 with
      | .error e => .error e
      | .ok (hunks, value, rest) =>
          .ok ({ hunks := hunks, truncate := value }, rest)

/-- `IPSPatch::apply` from `src/ips.rs`: apply each hunk in sequence order,
then truncate the target when a truncate length is present (all target
operations are total on a `Cursor<Vec<u8>>`). -/
def IPSPatch.apply (p : IPSPatch) (target : List Nat) : List Nat :=
  let t := p.hunks.foldl (fun acc h => h.apply acc) target
  match p.truncate with
  | some value => vecTruncate t value
  | none => t

/-- The `loop` of `apply_ips_patch`, with the same fuel convention as
`readHunksLoop`; the pair returned is the call's result together with the
final state of the mutably borrowed target. -/
def streamLoop : Nat → List Nat → List Nat → Except Error Unit × List Nat
  | 0, _, target => (.error (Error.new .ParsingError), target)
  | fuel + 1, input, target =>
      match IPSHunk.try_read input with
      | .error e => (.error e, target)
      | .ok (.Hunk hunk, rest) => streamLoop fuel rest (hunk.apply target)
      | .ok (.EOF (some value), _) => (.ok (), vecTruncate target value)
      | .ok (.EOF none, _) => (.ok (), target)

/-- `apply_ips_patch` from `src/ips.rs`: parse the header, then read hunks
one at a time, applying each to the target immediately; at the EOF marker
truncate the target if a truncate amount was read.  Returns the result and
the final target state. -/
def apply_ips_patch (patch : List Nat) (target : List Nat) :
    Except Error Unit × List Nat :=
  match IPSPatch.read_header patch with
  | .error e => (.error e, target)
  | .ok r1 => streamLoop (r1.length + 1) r1 target

/-- The two-step path: `IPSPatch::read_from` followed by `IPSPatch::apply`;
on a parse error the target is never touched.  Returns the result and the
final target state, for comparison with `apply_ips_patch`. -/
def parseThenApply (patch : List Nat) (target : List Nat) :
    Except Error Unit × List Nat :=
  match IPSPatch.read_from patch with
  | .error e => (.error e, target)
  | .ok (p, _) => (.ok (), p.apply target)

/-- The 24-bit value of the EOF marker bytes (0x454F46). -/
def EOFvalue : Nat := u32.from_u24_be_bytes IPSPatch.EOF

/-- A byte stream is well formed when every element is an actual byte; the
Rust `u8` element type enforces this. -/
def bytesWF (l : List Nat) : Prop := ∀ b ∈ l, b < 256

instance (l : List Nat) : Decidable (bytesWF l) :=
  inferInstanceAs (Decidable (∀ b ∈ l, b < 256))

/-- A hunk within the spec's data-model ranges: 24-bit offset that is not
the reserved EOF marker value, 16-bit length fields, a nonzero literal
length, and a literal payload of exactly `length` bytes. -/
def WFHunk : IPSHunk → Prop
  | .Regular d =>
      d.offset < 2 ^ 24 ∧ d.offset ≠ EOFvalue ∧ d.length ≠ 0 ∧
        d.length < 2 ^ 16 ∧ d.payload.length = d.length
  | .RLE d => d.offset < 2 ^ 24 ∧ d.offset ≠ EOFvalue ∧ d.run_length < 2 ^ 16

instance : (h : IPSHunk) → Decidable (WFHunk h)
  | .Regular d =>
      inferInstanceAs (Decidable (d.offset < 2 ^ 24 ∧ d.offset ≠ EOFvalue ∧
        d.length ≠ 0 ∧ d.length < 2 ^ 16 ∧ d.payload.length = d.length))
  | .RLE d =>
      inferInstanceAs (Decidable (d.offset < 2 ^ 24 ∧ d.offset ≠ EOFvalue ∧
        d.run_length < 2 ^ 16))

/-- A patch within the spec's data-model ranges: well-formed hunks and a
24-bit truncate length when present (`getD 0` makes the absent case hold
trivially). -/
def WFPatch (p : IPSPatch) : Prop :=
  (∀ h ∈ p.hunks, WFHunk h) ∧ p.truncate.getD 0 < 2 ^ 24

instance (p : IPSPatch) : Decidable (WFPatch p) :=
  inferInstanceAs (Decidable (_ ∧ _))

/-! ### Arithmetic helpers for the big-endian byte codecs -/

lemma or_eq_add_mul_256 {a b : Nat} (hb : b < 256) :
    a * 256 ||| b = a * 256 + b := by
  have h := Nat.mul_add_lt_is_or (b := b) (i := 8) (by norm_num at hb ⊢; omega) a
  calc a * 256 ||| b = 2 ^ 8 * a ||| b := by norm_num [Nat.mul_comm]
    _ = 2 ^ 8 * a + b := h.symm
    _ = a * 256 + b := by ring

lemma or_eq_add_mul_65536 {a b : Nat} (hb : b < 65536) :
    a * 65536 ||| b = a * 65536 + b := by
  have h := Nat.mul_add_lt_is_or (b := b) (i := 16) (by norm_num at hb ⊢; omega) a
  calc a * 65536 ||| b = 2 ^ 16 * a ||| b := by norm_num [Nat.mul_comm]
    _ = 2 ^ 16 * a + b := h.symm
    _ = a * 65536 + b := by ring

lemma and_255_eq_mod (x : Nat) : x &&& 0xFF = x % 256 := by
  have h := Nat.and_pow_two_sub_one_eq_mod x 8
  norm_num at h
  exact h

lemma from_u24_be_bytes_eq (b0 b1 b2 : Nat) (h1 : b1 < 256) (h2 : b2 < 256) :
    u32.from_u24_be_bytes [b0, b1, b2] = b0 * 65536 + b1 * 256 + b2 := by
  simp only [u32.from_u24_be_bytes, List.getD, List.getElem?_cons_zero,
    List.getElem?_cons_succ, Option.getD_some, Nat.shiftLeft_eq]
  norm_num
  rw [or_eq_add_mul_65536 (by omega),
    show b0 * 65536 + b1 * 256 = (b0 * 256 + b1) * 256 by ring,
    or_eq_add_mul_256 h2]

lemma from_u16_be_bytes_eq (b0 b1 : Nat) (h1 : b1 < 256) :
    u16.from_be_bytes [b0, b1] = b0 * 256 + b1 := by
  simp only [u16.from_be_bytes, List.getD, List.getElem?_cons_zero,
    List.getElem?_cons_succ, Option.getD_some, Nat.shiftLeft_eq]
  norm_num
  rw [or_eq_add_mul_256 h1]

lemma to_u24_be_bytes_eq (v : Nat) :
    u32.to_u24_be_bytes v = [v / 65536 % 256, v / 256 % 256, v % 256] := by
  simp only [u32.to_u24_be_bytes, Nat.shiftRight_eq_div_pow, and_255_eq_mod]

lemma to_u16_be_bytes_eq (v : Nat) :
    u16.to_be_bytes v = [v / 256 % 256, v % 256] := by
  simp only [u16.to_be_bytes, Nat.shiftRight_eq_div_pow, and_255_eq_mod]

lemma u24_round (v : Nat) (hv : v < 2 ^ 24) :
    u32.from_u24_be_bytes (u32.to_u24_be_bytes v) = v := by
  rw [to_u24_be_bytes_eq, from_u24_be_bytes_eq _ _ _ (Nat.mod_lt _ (by omega))
    (Nat.mod_lt _ (by omega))]
  norm_num at hv
  omega

lemma u16_round (v : Nat) (hv : v < 2 ^ 16) :
    u16.from_be_bytes (u16.to_be_bytes v) = v := by
  rw [to_u16_be_bytes_eq, from_u16_be_bytes_eq _ _ (Nat.mod_lt _ (by omega))]
  norm_num at hv
  omega

lemma from_u24_be_bytes_lt (b0 b1 b2 : Nat) (h0 : b0 < 256) (h1 : b1 < 256)
    (h2 : b2 < 256) : u32.from_u24_be_bytes [b0, b1, b2] < 2 ^ 24 := by
  rw [from_u24_be_bytes_eq _ _ _ h1 h2]
  norm_num
  omega

/-! ### Parsing the serializer's output -/

lemma readExact_append (pre rest : List Nat) :
    readExact pre.length (pre ++ rest) = .ok (pre, rest) := by
  simp [readExact, List.take_left, List.drop_left]

lemma read_u24_be_write (msg : String) (v : Nat) (hv : v < 2 ^ 24)
    (rest : List Nat) :
    read_u24_be msg (u32.to_u24_be_bytes v ++ rest) = .ok (v, rest) := by
  have h3 : (3 : Nat) = (u32.to_u24_be_bytes v).length := rfl
  rw [read_u24_be, h3]
  simp only [readExact_append, u24_round v hv]

lemma read_u16_be_write (msg : String) (v : Nat) (hv : v < 2 ^ 16)
    (rest : List Nat) :
    read_u16_be msg (u16.to_be_bytes v ++ rest) = .ok (v, rest) := by
  have h2 : (2 : Nat) = (u16.to_be_bytes v).length := rfl
  rw [read_u16_be, h2]
  simp only [readExact_append, u16_round v hv]

lemma read_u16_be_zero (msg : String) (rest : List Nat) :
    read_u16_be msg (0 :: 0 :: rest) = .ok (0, rest) := by
  simp [read_u16_be, readExact, List.take, List.drop, u16.from_be_bytes]

lemma read_u8_cons (msg : String) (b : Nat) (rest : List Nat) :
    read_u8 msg (b :: rest) = .ok (b, rest) := by
  simp [read_u8, readExact, List.take, List.drop]

lemma read_trunc_of_three (b0 b1 b2 : Nat) (rest : List Nat) :
    IPSHunk.read_trunc (b0 :: b1 :: b2 :: rest) =
      .ok (.EOF (some (u32.from_u24_be_bytes [b0, b1, b2])), rest) := by
  simp [IPSHunk.read_trunc, readExact, List.take, List.drop]

lemma read_trunc_short (tail : List Nat) (h : tail.length < 3) :
    IPSHunk.read_trunc tail = .ok (.EOF none, tail) := by
  simp [IPSHunk.read_trunc, readExact, Nat.not_le_of_lt h]

lemma exists_three_of_not_lt (tail : List Nat) (h : ¬ tail.length < 3) :
    ∃ b0 b1 b2 tl, tail = b0 :: b1 :: b2 :: tl := by
  match tail with
  | [] => simp at h
  | [a] => simp at h
  | [a, b] => simp at h
  | a :: b :: c :: tl => exact ⟨a, b, c, tl, rfl⟩

lemma read_trunc_not_hunk (tail : List Nat) (hk : IPSHunk) (rest : List Nat) :
    IPSHunk.read_trunc tail ≠ .ok (.Hunk hk, rest) := by
  by_cases h : tail.length < 3
  · rw [read_trunc_short tail h]
    simp
  · obtain ⟨b0, b1, b2, tl, htl⟩ := exists_three_of_not_lt tail h
    rw [htl, read_trunc_of_three]
    simp

lemma read_trunc_no_error (tail : List Nat) (e : Error) :
    IPSHunk.read_trunc tail ≠ .error e := by
  by_cases h : tail.length < 3
  · rw [read_trunc_short tail h]
    simp
  · obtain ⟨b0, b1, b2, tl, htl⟩ := exists_three_of_not_lt tail h
    rw [htl, read_trunc_of_three]
    simp

lemma try_read_eofmarker (tail : List Nat) :
    IPSHunk.try_read (IPSPatch.EOF ++ tail) = IPSHunk.read_trunc tail := by
  have h : read_u24_be "Unable to parse offset." (IPSPatch.EOF ++ tail) =
      .ok (EOFvalue, tail) := by
    have h3 : (3 : Nat) = (IPSPatch.EOF).length := rfl
    rw [read_u24_be, h3]
    simp only [readExact_append]
    rfl
  have heof : IPSHunk.try_read_eof tail EOFvalue =
      some (IPSHunk.read_trunc tail) := by
    rw [IPSHunk.try_read_eof]
    exact if_pos rfl
  simp only [IPSHunk.try_read, h, heof]

lemma regular_read_payload (offset : Nat) (payload rest : List Nat) :
    IPSRegularHunkData.read (payload ++ rest) offset payload.length =
      .ok (.Regular
        { offset := offset, length := payload.length, payload := payload },
        rest) := by
  simp only [IPSRegularHunkData.read, readExact_append]

lemma try_read_write (h : IPSHunk) (hwf : WFHunk h) (rest : List Nat) :
    IPSHunk.try_read (h.write ++ rest) = .ok (.Hunk h, rest) := by
  cases h with
  | Regular d =>
    obtain ⟨ho, hne, hlen0, hlen, hpl⟩ := hwf
    have hshape : (u32.to_u24_be_bytes d.offset ++ u16.to_be_bytes d.length ++
        d.payload) ++ rest = u32.to_u24_be_bytes d.offset ++
          (u16.to_be_bytes d.length ++ (d.payload ++ rest)) := by
      simp
    have heof : IPSHunk.try_read_eof (u16.to_be_bytes d.length ++
        (d.payload ++ rest)) d.offset = none := by
      rw [IPSHunk.try_read_eof]
      exact if_neg hne
    have h3 : IPSRegularHunkData.read (d.payload ++ rest) d.offset d.length =
        .ok (.Regular d, rest) := by
      rw [← hpl, regular_read_payload, hpl]
    rw [IPSHunk.write, IPSRegularHunkData.write, hshape]
    simp only [IPSHunk.try_read, read_u24_be_write _ _ ho, heof,
      read_u16_be_write _ _ hlen, if_neg hlen0, h3]
  | RLE d =>
    obtain ⟨ho, hne, hrun⟩ := hwf
    have hshape : (u32.to_u24_be_bytes d.offset ++ [0, 0] ++
        u16.to_be_bytes d.run_length ++ [d.payload]) ++ rest =
        u32.to_u24_be_bytes d.offset ++
          (0 :: 0 :: (u16.to_be_bytes d.run_length ++ (d.payload :: rest))) := by
      simp
    have heof : IPSHunk.try_read_eof
        (0 :: 0 :: (u16.to_be_bytes d.run_length ++ (d.payload :: rest)))
        d.offset = none := by
      rw [IPSHunk.try_read_eof]
      exact if_neg hne
    have h3 : IPSRLEHunkData.read
        (u16.to_be_bytes d.run_length ++ (d.payload :: rest)) d.offset =
        .ok (.RLE d, rest) := by
      simp only [IPSRLEHunkData.read, read_u16_be_write _ _ hrun, read_u8_cons]
    rw [IPSHunk.write, IPSRLEHunkData.write, hshape]
    simp only [IPSHunk.try_read, read_u24_be_write _ _ ho, heof,
      read_u16_be_zero, h3]
    simp

lemma write_length_pos (h : IPSHunk) : 1 ≤ h.write.length := by
  cases h with
  | Regular d =>
    simp [IPSHunk.write, IPSRegularHunkData.write, u32.to_u24_be_bytes]
  | RLE d =>
    simp [IPSHunk.write, IPSRLEHunkData.write, u32.to_u24_be_bytes]

lemma readHunksLoop_write (hs : List IPSHunk) (hwf : ∀ h ∈ hs, WFHunk h)
    (tail : List Nat) (tr : Option Nat) (rest : List Nat) (fuel : Nat)
    (hfuel : (writeHunks hs ++ IPSPatch.EOF ++ tail).length ≤ fuel)
    (htr : IPSHunk.read_trunc tail = .ok (.EOF tr, rest)) :
    readHunksLoop fuel (writeHunks hs ++ IPSPatch.EOF ++ tail) =
      .ok (hs, tr, rest) := by
  induction hs generalizing fuel with
  | nil =>
    simp only [writeHunks, List.nil_append] at hfuel ⊢
    obtain ⟨f, rfl⟩ : ∃ f, fuel = f + 1 := by
      refine ⟨fuel - 1, ?_⟩
      simp [IPSPatch.EOF] at hfuel
      omega
    simp only [readHunksLoop, try_read_eofmarker, htr]
  | cons h hs ih =>
    have hwh := hwf h (List.mem_cons_self h hs)
    have hlen := write_length_pos h
    simp only [writeHunks, List.append_assoc] at hfuel ⊢
    obtain ⟨f, rfl⟩ : ∃ f, fuel = f + 1 := by
      refine ⟨fuel - 1, ?_⟩
      simp [List.length_append] at hfuel
      omega
    have hrec := ih (fun h hm => hwf h (List.mem_cons_of_mem _ hm)) f
      (by simp [List.length_append] at hfuel ⊢; omega)
    rw [List.append_assoc] at hrec
    simp only [readHunksLoop, try_read_write h hwh, hrec]

lemma read_header_write (body : List Nat) :
    IPSPatch.read_header (IPSPatch.HEADER ++ body) = .ok body := by
  rw [IPSPatch.read_header, assert_read]
  simp only [readExact_append]
  simp

lemma read_from_write_gen (hs : List IPSHunk) (hwf : ∀ h ∈ hs, WFHunk h)
    (tail : List Nat) (tr : Option Nat) (rest : List Nat)
    (htr : IPSHunk.read_trunc tail = .ok (.EOF tr, rest)) :
    IPSPatch.read_from
        (IPSPatch.HEADER ++ (writeHunks hs ++ IPSPatch.EOF ++ tail)) =
      .ok ({ hunks := hs, truncate := tr }, rest) := by
  have hloop := readHunksLoop_write hs hwf tail tr rest
    ((writeHunks hs ++ IPSPatch.EOF ++ tail).length + 1) (by omega) htr
  simp only [IPSPatch.read_from, read_header_write, hloop]

lemma read_trunc_of_to_u24 (v : Nat) (hv : v < 2 ^ 24) :
    IPSHunk.read_trunc (u32.to_u24_be_bytes v) = .ok (.EOF (some v), []) := by
  rw [show u32.to_u24_be_bytes v =
    [(v >>> 16) &&& 0xFF, (v >>> 8) &&& 0xFF, v &&& 0xFF] from rfl,
    read_trunc_of_three,
    show [(v >>> 16) &&& 0xFF, (v >>> 8) &&& 0xFF, v &&& 0xFF] =
      u32.to_u24_be_bytes v from rfl,
    u24_round v hv]

lemma streamLoop_eq_readHunksLoop (fuel : Nat) :
    ∀ (input target : List Nat) (hs : List IPSHunk) (tr : Option Nat)
      (rest : List Nat),
      readHunksLoop fuel input = .ok (hs, tr, rest) →
      streamLoop fuel input target =
        (.ok (), IPSPatch.apply { hunks := hs, truncate := tr } target) := by
  induction fuel with
  | zero =>
    intro input target hs tr rest h
    simp [readHunksLoop] at h
  | succ f ih =>
    intro input target hs tr rest h
    rw [readHunksLoop] at h
    cases htr : IPSHunk.try_read input with
    | error e =>
      rw [htr] at h
      simp at h
    | ok pr =>
      obtain ⟨r, rest1⟩ := pr
      cases r with
      | EOF v =>
        rw [htr] at h
        dsimp only at h
        simp only [Except.ok.injEq, Prod.mk.injEq] at h
        obtain ⟨h1, h2, h3⟩ := h
        simp only [streamLoop, htr, ← h1, ← h2]
        cases v with
        | none => simp [IPSPatch.apply]
        | some w => simp [IPSPatch.apply]
      | Hunk hk =>
        rw [htr] at h
        dsimp only at h
        cases hrec : readHunksLoop f rest1 with
        | error e =>
          rw [hrec] at h
          simp at h
        | ok trip =>
          obtain ⟨hs2, tr2, rest2⟩ := trip
          rw [hrec] at h
          dsimp only at h
          simp only [Except.ok.injEq, Prod.mk.injEq] at h
          obtain ⟨h1, h2, h3⟩ := h
          simp only [streamLoop, htr, ← h1, ← h2, ← h3,
            ih rest1 (hk.apply target) hs2 tr2 rest2 hrec]
          simp [IPSPatch.apply]

lemma read_from_inv (input : List Nat) (p : IPSPatch) (rest : List Nat)
    (h : IPSPatch.read_from input = .ok (p, rest)) :
    ∃ r1, IPSPatch.read_header input = .ok r1 ∧
      readHunksLoop (r1.length + 1) r1 = .ok (p.hunks, p.truncate, rest) := by
  rw [IPSPatch.read_from] at h
  cases hh : IPSPatch.read_header input with
  | error e =>
    rw [hh] at h
    dsimp only at h
    exact absurd h (by simp)
  | ok r1 =>
    rw [hh] at h
    dsimp only at h
    cases hl : readHunksLoop (r1.length + 1) r1 with
    | error e =>
      rw [hl] at h
      dsimp only at h
      exact absurd h (by simp)
    | ok trip =>
      obtain ⟨hs, tr, rest2⟩ := trip
      rw [hl] at h
      dsimp only at h
      simp only [Except.ok.injEq, Prod.mk.injEq] at h
      obtain ⟨h1, h2⟩ := h
      subst h1
      subst h2
      exact ⟨r1, rfl, hl⟩

/-- Claim C1, amended: for every patch within the spec's data-model ranges
(24-bit offsets and truncate length, 16-bit length fields, literal payload
of exactly `length` bytes) in which no literal hunk has a zero length field
and no hunk's offset equals the 24-bit value of the reserved EOF marker,
parsing the serialized bytes succeeds and returns the same patch with all
input consumed. -/
theorem C1_serialize_parse_roundtrip (p : IPSPatch) (hwf : WFPatch p) :
    IPSPatch.read_from (IPSPatch.write p) = .ok (p, []) := by
  obtain ⟨hhs, htr24⟩ := hwf
  cases ht : p.truncate with
  | none =>
    have hshape : IPSPatch.write p = IPSPatch.HEADER ++
        (writeHunks p.hunks ++ IPSPatch.EOF ++ []) := by
      rw [IPSPatch.write, ht]
      simp
    have htr : IPSHunk.read_trunc ([] : List Nat) = .ok (.EOF none, []) :=
      read_trunc_short [] (by simp)
    rw [hshape, read_from_write_gen p.hunks hhs [] none [] htr, ← ht]
  | some v =>
    have hv : v < 2 ^ 24 := by
      rw [ht] at htr24
      simpa using htr24
    have hshape : IPSPatch.write p = IPSPatch.HEADER ++
        (writeHunks p.hunks ++ IPSPatch.EOF ++ u32.to_u24_be_bytes v) := by
      rw [IPSPatch.write, ht]
      simp
    rw [hshape, read_from_write_gen p.hunks hhs _ (some v) []
      (read_trunc_of_to_u24 v hv), ← ht]

/-- Witness for C1 on the repository's own multi-hunk test patch. -/
theorem C1_serialize_parse_roundtrip_witness :
    WFPatch
      { hunks := [
          .Regular { offset := 258, length := 2, payload := [0xAA, 0xBB] },
          .RLE { offset := 258, run_length := 43707, payload := 0xCC }],
        truncate := some 32 } ∧
    IPSPatch.read_from (IPSPatch.write
      { hunks := [
          .Regular { offset := 258, length := 2, payload := [0xAA, 0xBB] },
          .RLE { offset := 258, run_length := 43707, payload := 0xCC }],
        truncate := some 32 }) =
      .ok ({ hunks := [
               .Regular { offset := 258, length := 2, payload := [0xAA, 0xBB] },
               .RLE { offset := 258, run_length := 43707, payload := 0xCC }],
             truncate := some 32 }, []) :=
  ⟨by decide, C1_serialize_parse_roundtrip _ (by decide)⟩

/-- Counterexample to C1 as stated: a patch whose only hunk is an RLE hunk
(so no literal hunk has a zero length field) with offset 4542278 — the
24-bit value of the ASCII bytes "EOF" — serializes to bytes whose parse
succeeds but returns a different patch: the offset is taken for the EOF
marker, the hunk is lost, and the run-length bytes are misread as a
truncate length. -/
theorem C1_counterexample :
    IPSPatch.read_from (IPSPatch.write
      { hunks := [.RLE { offset := 4542278, run_length := 1, payload := 0 }],
        truncate := none }) =
      .ok ({ hunks := [], truncate := some 0 }, [1, 0, 0x45, 0x4F, 0x46]) ∧
    ({ hunks := [], truncate := some 0 } : IPSPatch) ≠
      { hunks := [.RLE { offset := 4542278, run_length := 1, payload := 0 }],
        truncate := none } := by
  decide

/-- Claim C2, amended: on every input whose parse succeeds, the streaming
applicator and the parse-then-apply path agree exactly — same result and
byte-for-byte the same final target.  (On inputs whose parse fails partway
through the hunk stream the two paths can diverge: streaming has already
applied earlier hunks to the target, see the counterexample.) -/
theorem C2_streaming_equals_parse_then_apply (input target : List Nat)
    (p : IPSPatch) (rest : List Nat)
    (hp : IPSPatch.read_from input = .ok (p, rest)) :
    apply_ips_patch input target = parseThenApply input target ∧
    (apply_ips_patch input target).2 = p.apply target := by
  obtain ⟨r1, hh, hl⟩ := read_from_inv input p rest hp
  have hstream := streamLoop_eq_readHunksLoop (r1.length + 1) r1 target
    p.hunks p.truncate rest hl
  have ha : apply_ips_patch input target = (.ok (), p.apply target) := by
    rw [apply_ips_patch, hh]
    dsimp only
    rw [hstream]
  have hb : parseThenApply input target = (.ok (), p.apply target) := by
    rw [parseThenApply, hp]
  exact ⟨ha.trans hb.symm, by rw [ha]⟩

/-- Witness for C2 on the repository's stream-apply test vector. -/
theorem C2_streaming_equals_parse_then_apply_witness :
    apply_ips_patch (IPSPatch.write
        { hunks := [.RLE { offset := 1, run_length := 3, payload := 0xa }],
          truncate := some 8 })
        [0, 1, 2, 3, 4, 5, 6, 7, 8, 9, 10, 11, 12, 13, 14, 15] =
      parseThenApply (IPSPatch.write
        { hunks := [.RLE { offset := 1, run_length := 3, payload := 0xa }],
          truncate := some 8 })
        [0, 1, 2, 3, 4, 5, 6, 7, 8, 9, 10, 11, 12, 13, 14, 15] ∧
    (apply_ips_patch (IPSPatch.write
        { hunks := [.RLE { offset := 1, run_length := 3, payload := 0xa }],
          truncate := some 8 })
        [0, 1, 2, 3, 4, 5, 6, 7, 8, 9, 10, 11, 12, 13, 14, 15]).2 =
      IPSPatch.apply
        { hunks := [.RLE { offset := 1, run_length := 3, payload := 0xa }],
          truncate := some 8 }
        [0, 1, 2, 3, 4, 5, 6, 7, 8, 9, 10, 11, 12, 13, 14, 15] :=
  C2_streaming_equals_parse_then_apply _ _
    { hunks := [.RLE { offset := 1, run_length := 3, payload := 0xa }],
      truncate := some 8 } [] (by decide)

/-- Counterexample to C2 as stated ("for every input byte stream"): on an
input holding one complete literal hunk followed by a truncated offset, the
streaming applicator applies the hunk before hitting the parse error and
leaves the target as [255], while the parse-then-apply path fails during
parsing and leaves the target untouched as [0]. -/
theorem C2_counterexample :
    (apply_ips_patch
        [0x50, 0x41, 0x54, 0x43, 0x48, 0, 0, 0, 0, 1, 255, 0, 0] [0]).2 =
      [255] ∧
    (parseThenApply
        [0x50, 0x41, 0x54, 0x43, 0x48, 0, 0, 0, 0, 1, 255, 0, 0] [0]).2 =
      [0] ∧
    (apply_ips_patch
        [0x50, 0x41, 0x54, 0x43, 0x48, 0, 0, 0, 0, 1, 255, 0, 0] [0]).2 ≠
      (parseThenApply
        [0x50, 0x41, 0x54, 0x43, 0x48, 0, 0, 0, 0, 1, 255, 0, 0] [0]).2 := by
  decide

/-- Claim C3, amended: in the EOF sub-step, when 3 or more bytes remain the
next 3 bytes become the truncate length; when 0, 1 or 2 bytes remain the
sub-step succeeds with truncate absent (a short read of an in-memory byte
source reports `UnexpectedEof`, which the code treats as a clean end of
patch); the "Unable to read truncate." parse error can arise only from an
I/O failure whose kind is not `UnexpectedEof`, which an in-memory byte
source never produces. -/
theorem C3_eof_truncate_substep (tail : List Nat) :
    (3 ≤ tail.length →
      IPSHunk.read_trunc tail =
        .ok (.EOF (some (u32.from_u24_be_bytes (tail.take 3))), tail.drop 3)) ∧
    (tail.length < 3 → IPSHunk.read_trunc tail = .ok (.EOF none, tail)) ∧
    (∀ e : Error, IPSHunk.read_trunc tail ≠ .error e) := by
  refine ⟨?_, fun h => read_trunc_short tail h, fun e => read_trunc_no_error tail e⟩
  intro h
  rw [IPSHunk.read_trunc, readExact, if_pos h]

/-- Witness for C3 at a 4-byte and a 2-byte tail. -/
theorem C3_eof_truncate_substep_witness :
    (IPSHunk.read_trunc [1, 2, 3, 4] =
      .ok (.EOF (some (u32.from_u24_be_bytes (([1, 2, 3, 4] : List Nat).take 3))),
        ([1, 2, 3, 4] : List Nat).drop 3)) ∧
    IPSHunk.read_trunc [0, 0] = .ok (.EOF none, [0, 0]) :=
  ⟨(C3_eof_truncate_substep [1, 2, 3, 4]).1 (by decide),
    (C3_eof_truncate_substep [0, 0]).2.1 (by decide)⟩

/-- Counterexample to C3 as stated: with exactly 2 bytes available after the
EOF marker, parsing does not fail with "Unable to read truncate." — it
succeeds with truncate absent, leaving the 2 bytes unconsumed. -/
theorem C3_counterexample :
    IPSPatch.read_from
        [0x50, 0x41, 0x54, 0x43, 0x48, 0x45, 0x4F, 0x46, 0, 0] =
      .ok ({ hunks := [], truncate := none }, [0, 0]) := by
  decide

/-- Claim C4: the truncate step clamps the target's size to at most `n` and
never grows it — both for the `Vec<u8>` truncate primitive and for the
truncate step of `IPSPatch::apply`; when `n` is below the current length the
target is cut to exactly `n` bytes. -/
theorem C4_truncate_clamps (target : List Nat) (n : Nat) :
    (target.length ≤ n →
      vecTruncate target n = target ∧
      IPSPatch.apply { hunks := [], truncate := some n } target = target) ∧
    (n < target.length →
      (vecTruncate target n).length = n ∧
      (IPSPatch.apply { hunks := [], truncate := some n } target).length = n) := by
  constructor
  · intro h
    have ht : vecTruncate target n = target := List.take_of_length_le h
    refine ⟨ht, ?_⟩
    simp only [IPSPatch.apply, List.foldl_nil]
    exact ht
  · intro h
    have ht : (vecTruncate target n).length = n := by
      simp only [vecTruncate, List.length_take]
      omega
    refine ⟨ht, ?_⟩
    simp only [IPSPatch.apply, List.foldl_nil]
    exact ht

/-- Witness for C4 with `n = 20` above and `n = 8` below a 16-byte target. -/
theorem C4_truncate_clamps_witness :
    (vecTruncate [0, 1, 2, 3, 4, 5, 6, 7, 8, 9, 10, 11, 12, 13, 14, 15] 20 =
        [0, 1, 2, 3, 4, 5, 6, 7, 8, 9, 10, 11, 12, 13, 14, 15] ∧
      IPSPatch.apply { hunks := [], truncate := some 20 }
          [0, 1, 2, 3, 4, 5, 6, 7, 8, 9, 10, 11, 12, 13, 14, 15] =
        [0, 1, 2, 3, 4, 5, 6, 7, 8, 9, 10, 11, 12, 13, 14, 15]) ∧
    ((vecTruncate [0, 1, 2, 3, 4, 5, 6, 7, 8, 9, 10, 11, 12, 13, 14, 15] 8).length
        = 8 ∧
      (IPSPatch.apply { hunks := [], truncate := some 8 }
          [0, 1, 2, 3, 4, 5, 6, 7, 8, 9, 10, 11, 12, 13, 14, 15]).length = 8) :=
  ⟨(C4_truncate_clamps [0, 1, 2, 3, 4, 5, 6, 7, 8, 9, 10, 11, 12, 13, 14, 15]
      20).1 (by decide),
    (C4_truncate_clamps [0, 1, 2, 3, 4, 5, 6, 7, 8, 9, 10, 11, 12, 13, 14, 15]
      8).2 (by decide)⟩

/-- Claim C5: applying a literal hunk writes its payload verbatim at its
offset and changes no other byte (stated for in-bounds writes as the take
++ payload ++ drop decomposition), and in particular the spec's example
instance holds. -/
theorem C5_regular_hunk_apply :
    (∀ (d : IPSRegularHunkData) (target : List Nat),
      d.offset + d.payload.length ≤ target.length →
      IPSHunk.apply (.Regular d) target =
        target.take d.offset ++ d.payload ++
          target.drop (d.offset + d.payload.length)) ∧
    IPSHunk.apply
        (.Regular { offset := 1, length := 3, payload := [0xa, 0xb, 0xc] })
        [0, 1, 2, 3, 4, 5, 6, 7, 8, 9, 10, 11, 12, 13, 14, 15] =
      [0, 0xa, 0xb, 0xc, 4, 5, 6, 7, 8, 9, 10, 11, 12, 13, 14, 15] := by
  constructor
  · intro d target h
    have hofs : d.offset ≤ target.length := le_trans (Nat.le_add_right _ _) h
    simp [IPSHunk.apply, IPSRegularHunkData.apply, cursorWrite,
      Nat.sub_eq_zero_of_le hofs]
  · decide

/-- Witness for C5's general part at the spec's example instance. -/
theorem C5_regular_hunk_apply_witness :
    IPSHunk.apply
        (.Regular { offset := 1, length := 3, payload := [0xa, 0xb, 0xc] })
        [0, 1, 2, 3, 4, 5, 6, 7, 8, 9, 10, 11, 12, 13, 14, 15] =
      ([0, 1, 2, 3, 4, 5, 6, 7, 8, 9, 10, 11, 12, 13, 14, 15] : List Nat).take 1
        ++ [0xa, 0xb, 0xc] ++
        ([0, 1, 2, 3, 4, 5, 6, 7, 8, 9, 10, 11, 12, 13, 14, 15] : List Nat).drop
          (1 + 3) :=
  C5_regular_hunk_apply.1
    { offset := 1, length := 3, payload := [0xa, 0xb, 0xc] }
    [0, 1, 2, 3, 4, 5, 6, 7, 8, 9, 10, 11, 12, 13, 14, 15] (by decide)

/-- Claim C6: applying a run-length hunk writes its payload byte
`run_length` times at its offset (a zero run length is a no-op on an
in-bounds offset), and the spec's example instance with `truncate = 8`
yields the 8-byte clamped target. -/
theorem C6_rle_hunk_apply :
    (∀ (d : IPSRLEHunkData) (target : List Nat),
      d.offset + d.run_length ≤ target.length →
      IPSHunk.apply (.RLE d) target =
        target.take d.offset ++ List.replicate d.run_length d.payload ++
          target.drop (d.offset + d.run_length)) ∧
    (∀ (d : IPSRLEHunkData) (target : List Nat),
      d.run_length = 0 → d.offset ≤ target.length →
      IPSHunk.apply (.RLE d) target = target) ∧
    IPSPatch.apply
        { hunks := [.RLE { offset := 1, run_length := 3, payload := 0xa }],
          truncate := some 8 }
        [0, 1, 2, 3, 4, 5, 6, 7, 8, 9, 10, 11, 12, 13, 14, 15] =
      [0, 0xa, 0xa, 0xa, 4, 5, 6, 7] := by
  refine ⟨?_, ?_, by decide⟩
  · intro d target h
    have hofs : d.offset ≤ target.length := le_trans (Nat.le_add_right _ _) h
    simp [IPSHunk.apply, IPSRLEHunkData.apply, cursorWrite,
      Nat.sub_eq_zero_of_le hofs]
  · intro d target h0 hofs
    simp [IPSHunk.apply, IPSRLEHunkData.apply, cursorWrite, h0,
      Nat.sub_eq_zero_of_le hofs]

/-- Witness for C6's general parts: the spec's run-length example and a
zero-length run. -/
theorem C6_rle_hunk_apply_witness :
    (IPSHunk.apply (.RLE { offset := 1, run_length := 3, payload := 0xa })
        [0, 1, 2, 3, 4, 5, 6, 7, 8, 9, 10, 11, 12, 13, 14, 15] =
      ([0, 1, 2, 3, 4, 5, 6, 7, 8, 9, 10, 11, 12, 13, 14, 15] : List Nat).take 1
        ++ List.replicate 3 0xa ++
        ([0, 1, 2, 3, 4, 5, 6, 7, 8, 9, 10, 11, 12, 13, 14, 15] : List Nat).drop
          (1 + 3)) ∧
    IPSHunk.apply (.RLE { offset := 2, run_length := 0, payload := 0xa })
        [5, 6, 7] = [5, 6, 7] :=
  ⟨C6_rle_hunk_apply.1 { offset := 1, run_length := 3, payload := 0xa }
      [0, 1, 2, 3, 4, 5, 6, 7, 8, 9, 10, 11, 12, 13, 14, 15] (by decide),
    C6_rle_hunk_apply.2.1 { offset := 2, run_length := 0, payload := 0xa }
      [5, 6, 7] (by decide) (by decide)⟩

/-- Claim C7: a present-but-wrong 5-byte header fails with "Invalid
header." while an input shorter than 5 bytes fails with "Unable to parse
header."; both are ParsingErrors. -/
theorem C7_header_errors :
    IPSPatch.read_from
        [0x50, 0x41, 0x54, 0x54, 0x48, 0x45, 0x4F, 0x46] =
      .error { kind := .ParsingError,
               description := some "Invalid header.",
               source := none } ∧
    IPSPatch.read_from [0x50, 0x41] =
      .error { kind := .ParsingError,
               description := some "Unable to parse header.",
               source := none } := by
  constructor
  · rfl
  · rfl

/-- Claim C8, amended: the offset, length, RLE run length and RLE payload
short reads produce a ParsingError carrying the field-naming description
and the underlying `UnexpectedEof` I/O failure as source; the literal-hunk
payload short read carries its description ("Unable to read payload.") but
its `map_err` closure discards the underlying failure, so its source is
absent. -/
theorem C8_short_read_errors :
    (∀ (msg : String) (input : List Nat), input.length < 3 →
      read_u24_be msg input =
        .error { kind := .ParsingError, description := some msg,
                 source := some { kind := .UnexpectedEof } }) ∧
    (∀ (msg : String) (input : List Nat), input.length < 2 →
      read_u16_be msg input =
        .error { kind := .ParsingError, description := some msg,
                 source := some { kind := .UnexpectedEof } }) ∧
    (∀ (msg : String) (input : List Nat), input.length < 1 →
      read_u8 msg input =
        .error { kind := .ParsingError, description := some msg,
                 source := some { kind := .UnexpectedEof } }) ∧
    (∀ (offset : Nat) (input : List Nat), input.length < 2 →
      IPSRLEHunkData.read input offset =
        .error { kind := .ParsingError,
                 description := some "Unable to read RLE run length.",
                 source := some { kind := .UnexpectedEof } }) ∧
    (∀ (offset b0 b1 : Nat),
      IPSRLEHunkData.read [b0, b1] offset =
        .error { kind := .ParsingError,
                 description := some "Unable to read RLE payload.",
                 source := some { kind := .UnexpectedEof } }) ∧
    (∀ (offset length : Nat) (input : List Nat), input.length < length →
      IPSRegularHunkData.read input offset length =
        .error { kind := .ParsingError,
                 description := some "Unable to read payload.",
                 source := none }) := by
  have h24 : ∀ (msg : String) (input : List Nat), input.length < 3 →
      read_u24_be msg input =
        .error { kind := .ParsingError, description := some msg,
                 source := some { kind := .UnexpectedEof } } := by
    intro msg input h
    rw [read_u24_be, readExact, if_neg (by omega : ¬ 3 ≤ input.length)]
    rfl
  have h16 : ∀ (msg : String) (input : List Nat), input.length < 2 →
      read_u16_be msg input =
        .error { kind := .ParsingError, description := some msg,
                 source := some { kind := .UnexpectedEof } } := by
    intro msg input h
    rw [read_u16_be, readExact, if_neg (by omega : ¬ 2 ≤ input.length)]
    rfl
  have h8 : ∀ (msg : String) (input : List Nat), input.length < 1 →
      read_u8 msg input =
        .error { kind := .ParsingError, description := some msg,
                 source := some { kind := .UnexpectedEof } } := by
    intro msg input h
    rw [read_u8, readExact, if_neg (by omega : ¬ 1 ≤ input.length)]
    rfl
  refine ⟨h24, h16, h8, ?_, ?_, ?_⟩
  · intro offset input h
    rw [IPSRLEHunkData.read, h16 _ input h]
  · intro offset b0 b1
    have hu16 : read_u16_be "Unable to read RLE run length." [b0, b1] =
        .ok (u16.from_be_bytes [b0, b1], []) := by
      rw [read_u16_be, readExact, if_pos (by simp)]
      rfl
    rw [IPSRLEHunkData.read, hu16]
    dsimp only
    rw [h8 _ [] (by simp)]
  · intro offset length input h
    rw [IPSRegularHunkData.read, readExact,
      if_neg (by omega : ¬ length ≤ input.length)]
    rfl

/-- Witness for C8 at concrete short inputs. -/
theorem C8_short_read_errors_witness :
    read_u24_be "Unable to parse offset." [1, 2] =
      .error { kind := .ParsingError,
               description := some "Unable to parse offset.",
               source := some { kind := .UnexpectedEof } } ∧
    IPSRegularHunkData.read [1, 2] 0 5 =
      .error { kind := .ParsingError,
               description := some "Unable to read payload.",
               source := none } :=
  ⟨C8_short_read_errors.1 "Unable to parse offset." [1, 2] (by decide),
    C8_short_read_errors.2.2.2.2.2 0 5 [1, 2] (by decide)⟩

/-- Counterexample to C8 as stated: parsing a patch whose literal hunk
promises 5 payload bytes but supplies 2 fails with the payload description,
yet the resulting error's source is `none` — the underlying I/O failure is
discarded, not preserved, for the literal-hunk payload read. -/
theorem C8_counterexample :
    IPSPatch.read_from
        [0x50, 0x41, 0x54, 0x43, 0x48, 0, 0, 0, 0, 5, 1, 2] =
      .error { kind := .ParsingError,
               description := some "Unable to read payload.",
               source := none } := by
  decide

/-! ### Invariants of parsed patches -/

/-- The shape invariant of every hunk a successful parse can produce. -/
def parsedHunkInv (hk : IPSHunk) : Prop :=
  match hk with
  | .Regular d =>
      d.offset < 2 ^ 24 ∧ d.offset ≠ EOFvalue ∧ 1 ≤ d.length ∧
        d.payload.length = d.length
  | .RLE d => d.offset < 2 ^ 24 ∧ d.offset ≠ EOFvalue

instance : (hk : IPSHunk) → Decidable (parsedHunkInv hk)
  | .Regular d =>
      inferInstanceAs (Decidable (d.offset < 2 ^ 24 ∧ d.offset ≠ EOFvalue ∧
        1 ≤ d.length ∧ d.payload.length = d.length))
  | .RLE d =>
      inferInstanceAs (Decidable (d.offset < 2 ^ 24 ∧ d.offset ≠ EOFvalue))

lemma bytesWF_drop (l : List Nat) (n : Nat) (hb : bytesWF l) :
    bytesWF (l.drop n) :=
  fun b hm => hb b (List.drop_subset n l hm)

lemma from_u24_take_lt (input : List Nat) (hb : bytesWF input)
    (h3 : 3 ≤ input.length) :
    u32.from_u24_be_bytes (input.take 3) < 2 ^ 24 := by
  have hlen : (input.take 3).length = 3 := by
    simp [List.length_take]
    omega
  obtain ⟨a, b, c, habc⟩ := List.length_eq_three.mp hlen
  have ha : a < 256 := hb a (List.take_subset 3 input (by rw [habc]; simp))
  have hbb : b < 256 := hb b (List.take_subset 3 input (by rw [habc]; simp))
  have hc : c < 256 := hb c (List.take_subset 3 input (by rw [habc]; simp))
  rw [habc]
  exact from_u24_be_bytes_lt a b c ha hbb hc

lemma readExact_inv (n : Nat) (input buf rest : List Nat)
    (h : readExact n input = .ok (buf, rest)) :
    n ≤ input.length ∧ buf = input.take n ∧ rest = input.drop n := by
  rw [readExact] at h
  split at h
  · rename_i hle
    simp only [Except.ok.injEq, Prod.mk.injEq] at h
    exact ⟨hle, h.1.symm, h.2.symm⟩
  · simp at h

lemma read_u24_be_inv (msg : String) (input : List Nat) (v : Nat)
    (r : List Nat) (h : read_u24_be msg input = .ok (v, r)) :
    3 ≤ input.length ∧ v = u32.from_u24_be_bytes (input.take 3) ∧
      r = input.drop 3 := by
  rw [read_u24_be] at h
  cases hre : readExact 3 input with
  | error e =>
    rw [hre] at h
    simp at h
  | ok pr =>
    obtain ⟨buf, r2⟩ := pr
    rw [hre] at h
    dsimp only at h
    simp only [Except.ok.injEq, Prod.mk.injEq] at h
    obtain ⟨h1, h2⟩ := h
    obtain ⟨hle, hbuf, hrest⟩ := readExact_inv _ _ _ _ hre
    exact ⟨hle, by rw [← h1, hbuf], by rw [← h2, hrest]⟩

lemma read_u16_be_inv (msg : String) (input : List Nat) (v : Nat)
    (r : List Nat) (h : read_u16_be msg input = .ok (v, r)) :
    2 ≤ input.length ∧ v = u16.from_be_bytes (input.take 2) ∧
      r = input.drop 2 := by
  rw [read_u16_be] at h
  cases hre : readExact 2 input with
  | error e =>
    rw [hre] at h
    simp at h
  | ok pr =>
    obtain ⟨buf, r2⟩ := pr
    rw [hre] at h
    dsimp only at h
    simp only [Except.ok.injEq, Prod.mk.injEq] at h
    obtain ⟨h1, h2⟩ := h
    obtain ⟨hle, hbuf, hrest⟩ := readExact_inv _ _ _ _ hre
    exact ⟨hle, by rw [← h1, hbuf], by rw [← h2, hrest]⟩

lemma read_u8_inv (msg : String) (input : List Nat) (v : Nat)
    (r : List Nat) (h : read_u8 msg input = .ok (v, r)) :
    1 ≤ input.length ∧ r = input.drop 1 := by
  rw [read_u8] at h
  cases hre : readExact 1 input with
  | error e =>
    rw [hre] at h
    simp at h
  | ok pr =>
    obtain ⟨buf, r2⟩ := pr
    rw [hre] at h
    dsimp only at h
    simp only [Except.ok.injEq, Prod.mk.injEq] at h
    obtain ⟨h1, h2⟩ := h
    obtain ⟨hle, hbuf, hrest⟩ := readExact_inv _ _ _ _ hre
    exact ⟨hle, by rw [← h2, hrest]⟩

lemma rle_read_inv (input : List Nat) (offset : Nat) (hk : IPSHunk)
    (rest : List Nat) (h : IPSRLEHunkData.read input offset = .ok (hk, rest)) :
    (∃ run payload, hk = .RLE
      { offset := offset, run_length := run, payload := payload }) ∧
      rest = input.drop 3 := by
  rw [IPSRLEHunkData.read] at h
  cases h16 : read_u16_be "Unable to read RLE run length." input with
  | error e =>
    rw [h16] at h
    simp at h
  | ok pr =>
    obtain ⟨run, r1⟩ := pr
    rw [h16] at h
    dsimp only at h
    cases h8 : read_u8 "Unable to read RLE payload." r1 with
    | error e =>
      rw [h8] at h
      simp at h
    | ok pr2 =>
      obtain ⟨b, r2⟩ := pr2
      rw [h8] at h
      dsimp only at h
      simp only [Except.ok.injEq, Prod.mk.injEq] at h
      obtain ⟨h1, h2⟩ := h
      obtain ⟨_, _, hr1⟩ := read_u16_be_inv _ _ _ _ h16
      obtain ⟨_, hr2⟩ := read_u8_inv _ _ _ _ h8
      refine ⟨⟨run, b, h1.symm⟩, ?_⟩
      rw [← h2, hr2, hr1]
      simp

lemma regular_read_inv (input : List Nat) (offset length : Nat)
    (hk : IPSHunk) (rest : List Nat)
    (h : IPSRegularHunkData.read input offset length = .ok (hk, rest)) :
    length ≤ input.length ∧
      hk = .Regular { offset := offset, length := length,
                      payload := input.take length } ∧
      rest = input.drop length := by
  rw [IPSRegularHunkData.read] at h
  cases hre : readExact length input with
  | error e =>
    rw [hre] at h
    simp at h
  | ok pr =>
    obtain ⟨buf, r2⟩ := pr
    rw [hre] at h
    dsimp only at h
    simp only [Except.ok.injEq, Prod.mk.injEq] at h
    obtain ⟨h1, h2⟩ := h
    obtain ⟨hle, hbuf, hrest⟩ := readExact_inv _ _ _ _ hre
    exact ⟨hle, by rw [← h1, hbuf], by rw [← h2, hrest]⟩

lemma try_read_hunk_inv (input : List Nat) (hb : bytesWF input)
    (hk : IPSHunk) (rest : List Nat)
    (h : IPSHunk.try_read input = .ok (.Hunk hk, rest)) :
    parsedHunkInv hk ∧ bytesWF rest := by
  rw [IPSHunk.try_read] at h
  cases h24 : read_u24_be "Unable to parse offset." input with
  | error e =>
    rw [h24] at h
    simp at h
  | ok pr =>
    obtain ⟨offset, r1⟩ := pr
    rw [h24] at h
    dsimp only at h
    obtain ⟨h3le, hov, hr1⟩ := read_u24_be_inv _ _ _ _ h24
    have hofs_lt : offset < 2 ^ 24 := by
      rw [hov]
      exact from_u24_take_lt input hb h3le
    have hbr1 : bytesWF r1 := hr1 ▸ bytesWF_drop input 3 hb
    by_cases heq : offset = u32.from_u24_be_bytes IPSPatch.EOF
    · rw [IPSHunk.try_read_eof, if_pos heq] at h
      exact absurd h (read_trunc_not_hunk r1 hk rest)
    · rw [IPSHunk.try_read_eof, if_neg heq] at h
      dsimp only at h
      cases h16 : read_u16_be "Unable to read length." r1 with
      | error e =>
        rw [h16] at h
        simp at h
      | ok pr2 =>
        obtain ⟨length, r2⟩ := pr2
        rw [h16] at h
        dsimp only at h
        obtain ⟨h2le, hlv, hr2⟩ := read_u16_be_inv _ _ _ _ h16
        have hbr2 : bytesWF r2 := hr2 ▸ bytesWF_drop r1 2 hbr1
        by_cases hz : length = 0
        · rw [if_pos hz] at h
          cases hr : IPSRLEHunkData.read r2 offset with
          | error e =>
            rw [hr] at h
            simp at h
          | ok pr3 =>
            obtain ⟨hk2, r3⟩ := pr3
            rw [hr] at h
            dsimp only at h
            simp only [Except.ok.injEq, Prod.mk.injEq,
              ReadHunkResult.Hunk.injEq] at h
            obtain ⟨hhk, hrest⟩ := h
            obtain ⟨⟨run, b, hk2eq⟩, hr3⟩ := rle_read_inv _ _ _ _ hr
            constructor
            · rw [← hhk, hk2eq]
              exact ⟨hofs_lt, heq⟩
            · rw [← hrest, hr3]
              exact bytesWF_drop r2 3 hbr2
        · rw [if_neg hz] at h
          cases hr : IPSRegularHunkData.read r2 offset length with
          | error e =>
            rw [hr] at h
            simp at h
          | ok pr3 =>
            obtain ⟨hk2, r3⟩ := pr3
            rw [hr] at h
            dsimp only at h
            simp only [Except.ok.injEq, Prod.mk.injEq,
              ReadHunkResult.Hunk.injEq] at h
            obtain ⟨hhk, hrest⟩ := h
            obtain ⟨hlen_le, hk2eq, hr3⟩ := regular_read_inv _ _ _ _ _ hr
            constructor
            · rw [← hhk, hk2eq]
              refine ⟨hofs_lt, heq, ?_, ?_⟩
              · show 1 ≤ length
                omega
              · show (r2.take length).length = length
                simp [List.length_take]
                omega
            · rw [← hrest, hr3]
              exact bytesWF_drop r2 length hbr2

lemma or_eq_zero_parts {a b : Nat} (h : a ||| b = 0) : a = 0 ∧ b = 0 := by
  constructor <;>
  · apply Nat.eq_of_testBit_eq
    intro i
    have hbit := congrArg (fun x => x.testBit i) h
    simp only [Nat.testBit_or, Nat.zero_testBit, Bool.or_eq_false_iff] at hbit
    simp [hbit.1, hbit.2, Nat.zero_testBit]

lemma try_read_rle_wire_zero (input : List Nat) (d : IPSRLEHunkData)
    (rest : List Nat)
    (h : IPSHunk.try_read input = .ok (.Hunk (.RLE d), rest)) :
    (input.drop 3).take 2 = [0, 0] := by
  rw [IPSHunk.try_read] at h
  cases h24 : read_u24_be "Unable to parse offset." input with
  | error e =>
    rw [h24] at h
    simp at h
  | ok pr =>
    obtain ⟨offset, r1⟩ := pr
    rw [h24] at h
    dsimp only at h
    obtain ⟨h3le, hov, hr1⟩ := read_u24_be_inv _ _ _ _ h24
    by_cases heq : offset = u32.from_u24_be_bytes IPSPatch.EOF
    · rw [IPSHunk.try_read_eof, if_pos heq] at h
      exact absurd h (read_trunc_not_hunk r1 _ rest)
    · rw [IPSHunk.try_read_eof, if_neg heq] at h
      dsimp only at h
      cases h16 : read_u16_be "Unable to read length." r1 with
      | error e =>
        rw [h16] at h
        simp at h
      | ok pr2 =>
        obtain ⟨length, r2⟩ := pr2
        rw [h16] at h
        dsimp only at h
        obtain ⟨h2le, hlv, hr2⟩ := read_u16_be_inv _ _ _ _ h16
        by_cases hz : length = 0
        · -- the RLE branch: the wire length field read from r1 was 0
          have hlen2 : (r1.take 2).length = 2 := by
            simp [List.length_take]
            omega
          obtain ⟨b0, b1, hb01⟩ := List.length_eq_two.mp hlen2
          have hz2 : u16.from_be_bytes [b0, b1] = 0 := by
            rw [← hb01, ← hlv]
            exact hz
          have hparts : b0 <<< 8 = 0 ∧ b1 = 0 := by
            apply or_eq_zero_parts
            simpa [u16.from_be_bytes] using hz2
          have hb0 : b0 = 0 := by
            have := hparts.1
            rw [Nat.shiftLeft_eq] at this
            omega
          rw [← hr1, hb01, hb0, hparts.2]
        · -- the regular branch cannot produce an RLE hunk
          rw [if_neg hz] at h
          cases hr : IPSRegularHunkData.read r2 offset length with
          | error e =>
            rw [hr] at h
            simp at h
          | ok pr3 =>
            obtain ⟨hk2, r3⟩ := pr3
            rw [hr] at h
            dsimp only at h
            simp only [Except.ok.injEq, Prod.mk.injEq,
              ReadHunkResult.Hunk.injEq] at h
            obtain ⟨hhk, hrest⟩ := h
            obtain ⟨hlen_le, hk2eq, hr3⟩ := regular_read_inv _ _ _ _ _ hr
            rw [hk2eq] at hhk
            simp at hhk

lemma readHunksLoop_inv (fuel : Nat) :
    ∀ (input : List Nat) (hs : List IPSHunk) (tr : Option Nat)
      (rest : List Nat), bytesWF input →
      readHunksLoop fuel input = .ok (hs, tr, rest) →
      ∀ hk ∈ hs, parsedHunkInv hk := by
  induction fuel with
  | zero =>
    intro input hs tr rest hb h
    simp [readHunksLoop] at h
  | succ f ih =>
    intro input hs tr rest hb h
    rw [readHunksLoop] at h
    cases htr : IPSHunk.try_read input with
    | error e =>
      rw [htr] at h
      simp at h
    | ok pr =>
      obtain ⟨r, rest1⟩ := pr
      cases r with
      | EOF v =>
        rw [htr] at h
        dsimp only at h
        simp only [Except.ok.injEq, Prod.mk.injEq] at h
        obtain ⟨h1, h2, h3⟩ := h
        intro hk hm
        rw [← h1] at hm
        simp at hm
      | Hunk hk0 =>
        rw [htr] at h
        dsimp only at h
        cases hrec : readHunksLoop f rest1 with
        | error e =>
          rw [hrec] at h
          simp at h
        | ok trip =>
          obtain ⟨hs2, tr2, rest2⟩ := trip
          rw [hrec] at h
          dsimp only at h
          simp only [Except.ok.injEq, Prod.mk.injEq] at h
          obtain ⟨h1, h2, h3⟩ := h
          obtain ⟨hinv, hbr⟩ := try_read_hunk_inv input hb hk0 rest1 htr
          intro hk hm
          rw [← h1] at hm
          rcases List.mem_cons.mp hm with rfl | hm2
          · exact hinv
          · exact ih rest1 hs2 tr2 rest2 hbr hrec hk hm2

lemma read_header_inv (input : List Nat) (r1 : List Nat)
    (h : IPSPatch.read_header input = .ok r1) : r1 = input.drop 5 := by
  rw [IPSPatch.read_header, assert_read] at h
  cases hre : readExact (IPSPatch.HEADER).length input with
  | error e =>
    rw [hre] at h
    simp at h
  | ok pr =>
    obtain ⟨buf, r2⟩ := pr
    rw [hre] at h
    dsimp only at h
    split at h
    · simp at h
    · simp only [Except.ok.injEq] at h
      obtain ⟨_, _, hrest⟩ := readExact_inv _ _ _ _ hre
      rw [← h, hrest]
      rfl

/-- Claim C9: every hunk of a successfully parsed patch has an offset below
2^24 that differs from the EOF marker value 0x454F46; every Regular hunk of
such a patch has a length of at least 1 and a payload of exactly that many
bytes; and the parser produces an RLE hunk only when the two wire bytes of
the length field it consumed were exactly 0. -/
theorem C9_parsed_patch_invariants :
    (∀ (input : List Nat) (p : IPSPatch) (rest : List Nat), bytesWF input →
      IPSPatch.read_from input = .ok (p, rest) →
      ∀ hk ∈ p.hunks, parsedHunkInv hk) ∧
    (∀ (input : List Nat) (d : IPSRLEHunkData) (rest : List Nat),
      IPSHunk.try_read input = .ok (.Hunk (.RLE d), rest) →
      (input.drop 3).take 2 = [0, 0]) := by
  constructor
  · intro input p rest hb h
    obtain ⟨r1, hh, hl⟩ := read_from_inv input p rest h
    have hbr1 : bytesWF r1 := (read_header_inv input r1 hh) ▸
      bytesWF_drop input 5 hb
    exact readHunksLoop_inv (r1.length + 1) r1 p.hunks p.truncate rest hbr1 hl
  · intro input d rest h
    exact try_read_rle_wire_zero input d rest h

/-- Witness for C9 on the repository's regular-hunk and RLE-hunk test
vectors. -/
theorem C9_parsed_patch_invariants_witness :
    parsedHunkInv
      (.Regular { offset := 258, length := 2, payload := [0xAA, 0xBB] }) ∧
    (([0, 1, 2, 0, 0, 0xAA, 0xBB, 0xCC] : List Nat).drop 3).take 2 = [0, 0] :=
  ⟨C9_parsed_patch_invariants.1
      [0x50, 0x41, 0x54, 0x43, 0x48, 0, 1, 2, 0, 2, 0xAA, 0xBB,
        0x45, 0x4F, 0x46]
      { hunks := [.Regular { offset := 258, length := 2, payload := [0xAA, 0xBB] }],
        truncate := none }
      [] (by decide) (by decide)
      (.Regular { offset := 258, length := 2, payload := [0xAA, 0xBB] })
      (by simp),
    C9_parsed_patch_invariants.2 [0, 1, 2, 0, 0, 0xAA, 0xBB, 0xCC]
      { offset := 258, run_length := 43707, payload := 0xCC } [] (by decide)⟩

/-- Claim C10: when more than 3 bytes follow the EOF marker, parsing
succeeds, stores exactly the first 3 of them (big-endian) as the truncate
length, and leaves every further byte unconsumed. -/
theorem C10_extra_bytes_after_eof (hs : List IPSHunk)
    (hwf : ∀ h ∈ hs, WFHunk h) (e0 e1 e2 : Nat) (rest : List Nat)
    (hne : rest ≠ []) :
    IPSPatch.read_from
        (IPSPatch.write { hunks := hs, truncate := none } ++
          (e0 :: e1 :: e2 :: rest)) =
      .ok ({ hunks := hs,
             truncate := some (u32.from_u24_be_bytes [e0, e1, e2]) }, rest) := by
  have hshape : IPSPatch.write { hunks := hs, truncate := none } ++
      (e0 :: e1 :: e2 :: rest) =
      IPSPatch.HEADER ++
        (writeHunks hs ++ IPSPatch.EOF ++ (e0 :: e1 :: e2 :: rest)) := by
    rw [IPSPatch.write]
    simp
  rw [hshape, read_from_write_gen hs hwf _ _ rest
    (read_trunc_of_three e0 e1 e2 rest)]

/-- Witness for C10 with one regular hunk and four trailing bytes. -/
theorem C10_extra_bytes_after_eof_witness :
    IPSPatch.read_from
        (IPSPatch.write
          { hunks := [.Regular { offset := 258, length := 2, payload := [0xAA, 0xBB] }],
            truncate := none } ++
          [0, 0, 0x20, 99]) =
      .ok ({ hunks := [.Regular { offset := 258, length := 2, payload := [0xAA, 0xBB] }],
             truncate := some (u32.from_u24_be_bytes [0, 0, 0x20]) }, [99]) :=
  C10_extra_bytes_after_eof
    [.Regular { offset := 258, length := 2, payload := [0xAA, 0xBB] }]
    (by decide) 0 0 0x20 [99] (by decide)
